import Mathlib

/-!
Verification of the dart-score publishing-readiness auditor.

The development shallowly embeds the source (src/index.js): the pure
text parsers become functions on `List Char`, and the effectful driver
becomes a function from an explicit environment (file-existence oracle,
manifest description, subprocess oracle) to the list of printed lines
plus an outcome.
-/

namespace DartScore

/-- Single-quote character, used in printed messages. -/
def sq : String := (Char.ofNat 39).toString

/-- ASCII simple case folding code, modelling the case-insensitive flag
of the source regexes: uppercase A-Z folds to lowercase, everything else
is its own code point. -/
def ciCode (c : Char) : Nat :=
  if 65 ≤ c.toNat ∧ c.toNat ≤ 90 then c.toNat + 32 else c.toNat

/-- The regex digit class [0-9]. -/
def isDigitCh (c : Char) : Bool :=
  decide (48 ≤ c.toNat ∧ c.toNat ≤ 57)

/-- Characters the regex dot does not match (line terminators). -/
def isLineTerm (c : Char) : Bool :=
  decide (c.toNat = 10 ∨ c.toNat = 13 ∨ c.toNat = 8232 ∨ c.toNat = 8233)

/-- parseInt on a run of decimal digits. -/
def digitsToNat (ds : List Char) : Nat :=
  ds.foldl (fun a c => a * 10 + (c.toNat - 48)) 0

/-- Case-insensitive literal match of a pattern at the head of the text:
returns the consumed text characters and the remainder. -/
def matchCI : List Char → List Char → Option (List Char × List Char)
  | [], l => some ([], l)
  | _ :: _, [] => none
  | p :: ps, c :: cs =>
    if ciCode p = ciCode c then
      match matchCI ps cs with
      | some (m, r) => some (c :: m, r)
      | none => none
    else none

/-- Case-sensitive literal match of a pattern at the head of the text. -/
def matchExact : List Char → List Char → Bool
  | [], _ => true
  | _ :: _, [] => false
  | p :: ps, c :: cs => if p = c then matchExact ps cs else false

theorem matchCI_decomp : ∀ (p l m r : List Char),
    matchCI p l = some (m, r) → l = m ++ r ∧ m.length = p.length := by
  intro p
  induction p with
  | nil => intro l m r h; simp [matchCI] at h; simp [h.1, h.2]
  | cons q ps ih =>
    intro l m r h
    cases l with
    | nil => simp [matchCI] at h
    | cons c cs =>
      simp only [matchCI] at h
      by_cases hq : ciCode q = ciCode c
      · simp only [if_pos hq] at h
        cases hm : matchCI ps cs with
        | none => rw [hm] at h; simp at h
        | some pr =>
          rw [hm] at h
          obtain ⟨m', r'⟩ := pr
          simp at h
          obtain ⟨hm1, hr⟩ := h
          have := ih cs m' r' hm
          subst hm1 hr
          simp [← this.1, this.2]
      · simp [if_neg hq] at h

theorem matchCI_head_code : ∀ (q : Char) (ps l m r : List Char),
    matchCI (q :: ps) l = some (m, r) →
    ∃ c m', m = c :: m' ∧ ciCode q = ciCode c := by
  intro q ps l m r h
  cases l with
  | nil => simp [matchCI] at h
  | cons c cs =>
    simp only [matchCI] at h
    by_cases hq : ciCode q = ciCode c
    · simp only [if_pos hq] at h
      cases hm : matchCI ps cs with
      | none => rw [hm] at h; simp at h
      | some pr => rw [hm] at h; simp at h; exact ⟨c, pr.1, by simp [← h.1], hq⟩
    · simp [if_neg hq] at h

/-- A character folding to code 32 is the space character. -/
theorem ciCode_eq_space {c : Char} (h : ciCode c = 32) : c.toNat = 32 := by
  unfold ciCode at h
  by_cases hr : 65 ≤ c.toNat ∧ c.toNat ≤ 90
  · rw [if_pos hr] at h; omega
  · rwa [if_neg hr] at h

theorem space_not_digit {c : Char} (h : c.toNat = 32) : isDigitCh c = false := by
  simp [isDigitCh]; omega

/-- Elements of a takeWhile run satisfy the predicate. -/
theorem mem_takeWhile_sat {p : Char → Bool} :
    ∀ (l : List Char) (c : Char), c ∈ l.takeWhile p → p c = true := by
  intro l
  induction l with
  | nil => intro c h; simp [List.takeWhile] at h
  | cons a t ih =>
    intro c h
    simp only [List.takeWhile] at h
    cases hp : p a with
    | false => rw [hp] at h; simp at h
    | true =>
      rw [hp] at h
      rcases List.mem_cons.mp h with h1 | h2
      · subst h1; exact hp
      · exact ih c h2

/-- takeWhile stops exactly at the first failing element. -/
theorem takeWhile_append_stop {p : Char → Bool} :
    ∀ (a : List Char) (c : Char) (b : List Char),
    (∀ x ∈ a, p x = true) → p c = false →
    (a ++ c :: b).takeWhile p = a := by
  intro a
  induction a with
  | nil => intro c b _ hc; simp [List.takeWhile, hc]
  | cons x t ih =>
    intro c b ha hc
    have hx : p x = true := ha x (by simp)
    simp only [List.cons_append, List.takeWhile, hx]
    rw [List.append_eq, ih c b (fun y hy => ha y (by simp [hy])) hc]

/-! ### Issue-count extractor (getNumberOfAnalysisIssue) -/

/-- Match ` issues? found` (case-insensitive) at the start of the text:
the literal ` issue`, a greedy optional `s` with backtracking, then
` found`.  Returns the consumed characters and the remainder. -/
def matchIssueTail (r0 : List Char) : Option (List Char × List Char) :=
  match matchCI (" issue".data) r0 with
  | none => none
  | some (m1, r1) =>
    match r1 with
    | c :: r2 =>
      if ciCode 's' = ciCode c then
        match matchCI (" found".data) r2 with
        | some (m2, r3) => some (m1 ++ c :: m2, r3)
        | none =>
          match matchCI (" found".data) r1 with
          | some (m2, r3) => some (m1 ++ m2, r3)
          | none => none
      else
        match matchCI (" found".data) r1 with
        | some (m2, r3) => some (m1 ++ m2, r3)
        | none => none
    | [] => none

/-- Try to match the regex `(\d+) issues? found` (case-insensitive) at the
start of the text.  On success returns the captured digit run, the rest of
the matched substring, and the remainder of the text after the match. -/
def matchIssueAt (l : List Char) : Option (List Char × List Char × List Char) :=
  let ds := l.takeWhile isDigitCh
  if ds = [] then none
  else
    match matchIssueTail (l.drop ds.length) with
    | some (mid, rest) => some (ds, mid, rest)
    | none => none

/-- Fuelled global scan collecting the matched substrings of
`(\d+) issues? found`, advancing one character on failure and past the
match on success, as the regex engine does with the g flag. -/
def scanIssuesF : Nat → List Char → List (List Char)
  | 0, _ => []
  | _ + 1, [] => []
  | fuel + 1, c :: t =>
    match matchIssueAt (c :: t) with
    | some (ds, mid, rest) => (ds ++ mid) :: scanIssuesF fuel rest
    | none => scanIssuesF fuel t

/-- The array produced by `output.match(/(\d+) issues? found/gi)`. -/
def issueMatchList (l : List Char) : List (List Char) :=
  scanIssuesF l.length l

/-- First match of `/\d+/` in a string: the leftmost maximal digit run. -/
def firstDigitRun : List Char → Option (List Char)
  | [] => none
  | c :: t =>
    if isDigitCh c then some ((c :: t).takeWhile isDigitCh)
    else firstDigitRun t

/-- Embeds getNumberOfAnalysisIssue: collect all matches of
`(\d+) issues? found` (g, i flags), then for each matched substring
re-extract its first digit run and sum the parsed values; a null match
array yields 0. -/
def getNumberOfAnalysisIssue (output : String) : Nat :=
  (issueMatchList output.data).foldl
    (fun acc m =>
      match firstDigitRun m with
      | some ds => acc + digitsToNat ds
      | none => acc) 0

/-- Spec-side reading: the values n_i of the non-overlapping occurrences
of the pattern, each occurrence contributing the number written at its
start. -/
def specIssueValues (l : List Char) : List Nat :=
  (issueMatchList l).map (fun m => digitsToNat (m.takeWhile isDigitCh))

/-! ### Lemmas for the issue-count extractor -/

theorem takeWhile_append_drop (p : Char → Bool) :
    ∀ l : List Char, l.takeWhile p ++ l.drop (l.takeWhile p).length = l := by
  intro l
  induction l with
  | nil => simp
  | cons c t ih =>
    simp only [List.takeWhile]
    cases hp : p c with
    | true => simpa using ih
    | false => simp

theorem matchIssueTail_decomp {r0 mid rest : List Char}
    (h : matchIssueTail r0 = some (mid, rest)) :
    r0 = mid ++ rest ∧ ∃ c mid', mid = c :: mid' ∧ c.toNat = 32 := by
  unfold matchIssueTail at h
  cases h1 : matchCI (" issue".data) r0 with
  | none => rw [h1] at h; simp at h
  | some pr1 =>
    obtain ⟨m1, r1⟩ := pr1
    rw [h1] at h
    have hd1 := matchCI_decomp _ _ _ _ h1
    have hh1 := matchCI_head_code ' ' ("issue".data) r0 m1 r1 h1
    obtain ⟨c0, m1', hm1, hc0⟩ := hh1
    have hc0' : c0.toNat = 32 := ciCode_eq_space (by rw [← hc0]; rfl)
    cases r1 with
    | nil => simp at h
    | cons c r2 =>
      simp only at h
      by_cases hs : ciCode 's' = ciCode c
      · rw [if_pos hs] at h
        cases h2 : matchCI (" found".data) r2 with
        | some pr2 =>
          obtain ⟨m2, r3⟩ := pr2
          rw [h2] at h
          simp only [Option.some.injEq, Prod.mk.injEq] at h
          obtain ⟨hmid, hrest⟩ := h
          have hd2 := matchCI_decomp _ _ _ _ h2
          subst hmid hrest
          refine ⟨?_, c0, m1' ++ c :: m2, by simp [hm1], hc0'⟩
          rw [hd1.1, hd2.1]; simp
        | none =>
          rw [h2] at h
          cases h3 : matchCI (" found".data) (c :: r2) with
          | none => rw [h3] at h; simp at h
          | some pr3 =>
            obtain ⟨m2, r3⟩ := pr3
            rw [h3] at h
            simp only [Option.some.injEq, Prod.mk.injEq] at h
            obtain ⟨hmid, hrest⟩ := h
            have hd3 := matchCI_decomp _ _ _ _ h3
            subst hmid hrest
            refine ⟨?_, c0, m1' ++ m2, by simp [hm1], hc0'⟩
            rw [hd1.1, hd3.1]; simp
      · rw [if_neg hs] at h
        cases h3 : matchCI (" found".data) (c :: r2) with
        | none => rw [h3] at h; simp at h
        | some pr3 =>
          obtain ⟨m2, r3⟩ := pr3
          rw [h3] at h
          simp only [Option.some.injEq, Prod.mk.injEq] at h
          obtain ⟨hmid, hrest⟩ := h
          have hd3 := matchCI_decomp _ _ _ _ h3
          subst hmid hrest
          refine ⟨?_, c0, m1' ++ m2, by simp [hm1], hc0'⟩
          rw [hd1.1, hd3.1]; simp

theorem matchIssueAt_elim {l ds mid rest : List Char}
    (h : matchIssueAt l = some (ds, mid, rest)) :
    ds = l.takeWhile isDigitCh ∧ ds ≠ [] ∧
    matchIssueTail (l.drop ds.length) = some (mid, rest) := by
  simp only [matchIssueAt] at h
  by_cases he : l.takeWhile isDigitCh = []
  · rw [if_pos he] at h; simp at h
  · rw [if_neg he] at h
    cases ht : matchIssueTail (l.drop (l.takeWhile isDigitCh).length) with
    | none => rw [ht] at h; simp at h
    | some pr =>
      obtain ⟨mid', rest'⟩ := pr
      rw [ht] at h
      simp only [Option.some.injEq, Prod.mk.injEq] at h
      obtain ⟨h1, h2, h3⟩ := h
      subst h1 h2 h3
      exact ⟨rfl, he, ht⟩

/-- A successful issue match decomposes the text and has a non-empty
all-digit capture followed by a non-digit character. -/
theorem matchIssueAt_shape {l ds mid rest : List Char}
    (h : matchIssueAt l = some (ds, mid, rest)) :
    l = ds ++ mid ++ rest ∧ ds ≠ [] ∧ (∀ x ∈ ds, isDigitCh x = true) ∧
    ∃ c mid', mid = c :: mid' ∧ isDigitCh c = false := by
  obtain ⟨hds, hne, ht⟩ := matchIssueAt_elim h
  obtain ⟨hdec, c, mid', hm, hc⟩ := matchIssueTail_decomp ht
  refine ⟨?_, hne, ?_, c, mid', hm, space_not_digit hc⟩
  · have := takeWhile_append_drop isDigitCh l
    rw [← hds] at this
    rw [← this, hdec]; simp
  · intro x hx; exact mem_takeWhile_sat l x (hds ▸ hx)

theorem matchIssueAt_rest_lt {l ds mid rest : List Char}
    (h : matchIssueAt l = some (ds, mid, rest)) : rest.length < l.length := by
  obtain ⟨hl, hne, _⟩ := matchIssueAt_shape h
  rw [hl]
  simp only [List.length_append]
  cases ds with
  | nil => exact absurd rfl hne
  | cons a b => simp

/-- On every collected match the per-match digit re-extraction finds
exactly the leading digit run. -/
theorem issue_match_digits {l ds mid rest : List Char}
    (h : matchIssueAt l = some (ds, mid, rest)) :
    firstDigitRun (ds ++ mid) = some ds ∧ (ds ++ mid).takeWhile isDigitCh = ds := by
  obtain ⟨_, hne, hall, c, mid', hm, hc⟩ := matchIssueAt_shape h
  have htw : (ds ++ mid).takeWhile isDigitCh = ds := by
    rw [hm]; exact takeWhile_append_stop ds c mid' hall hc
  refine ⟨?_, htw⟩
  cases ds with
  | nil => exact absurd rfl hne
  | cons d dt =>
    have hd : isDigitCh d = true := hall d (by simp)
    show firstDigitRun (d :: (dt ++ mid)) = some (d :: dt)
    simp only [firstDigitRun]
    rw [if_pos hd]
    show some (((d :: dt) ++ mid).takeWhile isDigitCh) = some (d :: dt)
    rw [htw]

theorem scanIssuesF_mem : ∀ (fuel : Nat) (l m : List Char),
    m ∈ scanIssuesF fuel l → firstDigitRun m = some (m.takeWhile isDigitCh) := by
  intro fuel
  induction fuel with
  | zero => intro l m h; simp [scanIssuesF] at h
  | succ n ih =>
    intro l m h
    cases l with
    | nil => simp [scanIssuesF] at h
    | cons c t =>
      simp only [scanIssuesF] at h
      cases hm : matchIssueAt (c :: t) with
      | some pr =>
        obtain ⟨ds, mid, rest⟩ := pr
        rw [hm] at h
        rcases List.mem_cons.mp h with h1 | h2
        · subst h1
          have := issue_match_digits hm
          rw [this.2, this.1]
        · exact ih rest m h2
      | none => rw [hm] at h; exact ih t m h

theorem issue_foldl_eq_sum :
    ∀ (L : List (List Char)) (a : Nat),
    (∀ m ∈ L, firstDigitRun m = some (m.takeWhile isDigitCh)) →
    L.foldl (fun acc m =>
      match firstDigitRun m with
      | some ds => acc + digitsToNat ds
      | none => acc) a
      = a + (L.map (fun m => digitsToNat (m.takeWhile isDigitCh))).sum := by
  intro L
  induction L with
  | nil => intro a _; simp
  | cons m t ih =>
    intro a hmem
    have hm := hmem m (by simp)
    simp only [List.foldl_cons, hm, List.map_cons, List.sum_cons]
    rw [ih (a + digitsToNat (m.takeWhile isDigitCh))
      (fun x hx => hmem x (by simp [hx]))]
    omega

/-- C1: for every input string the issue-count extractor returns the sum
of the values n_i of the non-overlapping occurrences of the pattern
`<n> issue(s) found` (case-insensitive), and returns 0 when the text has
no occurrence of the pattern. -/
theorem C1_issue_count_sums_matches (s : String) :
    getNumberOfAnalysisIssue s = (specIssueValues s.data).sum ∧
    (specIssueValues s.data = [] → getNumberOfAnalysisIssue s = 0) := by
  have hmain : getNumberOfAnalysisIssue s = (specIssueValues s.data).sum := by
    unfold getNumberOfAnalysisIssue specIssueValues issueMatchList
    rw [issue_foldl_eq_sum _ 0 (fun m hm => scanIssuesF_mem _ _ m hm)]
    simp
  exact ⟨hmain, fun he => by rw [hmain, he]; rfl⟩

/-- Witness for C1 on a concrete pattern-free input. -/
theorem C1_issue_count_witness : getNumberOfAnalysisIssue "all good" = 0 :=
  (C1_issue_count_sums_matches "all good").2 (by rfl)

/-! ### Outdated-package counter (parseOutdatedPackagesOutput) -/

/-- Characters removed by the string trim operation. -/
def isJsWs (c : Char) : Bool :=
  decide (c.toNat ∈ [9, 10, 11, 12, 13, 32, 160, 5760, 8192, 8193, 8194,
    8195, 8196, 8197, 8198, 8199, 8200, 8201, 8202, 8232, 8233, 8239,
    8287, 12288, 65279])

/-- String trim: drop whitespace from both ends. -/
def jsTrim (l : List Char) : List Char :=
  ((l.dropWhile isJsWs).reverse.dropWhile isJsWs).reverse

/-- Split on every newline character; the empty text yields one empty
piece, as the string split method does. -/
def splitNl : List Char → List (List Char)
  | [] => [[]]
  | c :: t =>
    if c = '\n' then [] :: splitNl t
    else
      match splitNl t with
      | h :: r => (c :: h) :: r
      | [] => [[c]]

/-- Single-character containment test (the includes method). -/
def hasChar : List Char → Char → Bool
  | [], _ => false
  | c :: t, x => c = x || hasChar t x

/-- One loop iteration of parseOutdatedPackagesOutput: trim the line,
skip it when it lacks the marker, count it when it has the marker and
its trim is non-empty. -/
def outdatedLineStep (acc : Nat) (ln : List Char) : Nat :=
  let line := jsTrim ln
  if !(hasChar line '*') then acc
  else if hasChar line '*' && decide (0 < (jsTrim line).length) then acc + 1
  else acc

/-- Embeds parseOutdatedPackagesOutput: trim the whole output, split it
on newlines, and count the qualifying lines. -/
def parseOutdatedPackagesOutput (output : String) : Nat :=
  (splitNl (jsTrim output.data)).foldl outdatedLineStep 0

/-- Spec-side reading: the number of lines of the trimmed text whose
trimmed form is non-empty and contains the table marker character. -/
def specOutdatedCount (l : List Char) : Nat :=
  (splitNl (jsTrim l)).countP
    (fun ln => !(jsTrim ln).isEmpty && hasChar (jsTrim ln) '*')

theorem hasChar_iff_mem : ∀ (l : List Char) (c : Char),
    hasChar l c = true ↔ c ∈ l := by
  intro l c
  induction l with
  | nil => simp [hasChar]
  | cons a t ih =>
    simp only [hasChar, Bool.or_eq_true, decide_eq_true_eq, ih, List.mem_cons]
    constructor
    · rintro (h | h)
      · exact Or.inl h.symm
      · exact Or.inr h
    · rintro (h | h)
      · exact Or.inl h.symm
      · exact Or.inr h

theorem mem_dropWhile_of_not_sat {p : Char → Bool} :
    ∀ (l : List Char) (c : Char), c ∈ l → p c = false → c ∈ l.dropWhile p := by
  intro l
  induction l with
  | nil => intro c h; simp at h
  | cons a t ih =>
    intro c h hc
    simp only [List.dropWhile]
    cases hp : p a with
    | false =>
      exact h
    | true =>
      rcases List.mem_cons.mp h with h1 | h2
      · subst h1; rw [hp] at hc; cases hc
      · exact ih c h2 hc

theorem mem_jsTrim_of_not_ws {c : Char} (hc : isJsWs c = false) :
    ∀ l : List Char, c ∈ l → c ∈ jsTrim l := by
  intro l h
  unfold jsTrim
  rw [List.mem_reverse]
  apply mem_dropWhile_of_not_sat _ c _ hc
  rw [List.mem_reverse]
  exact mem_dropWhile_of_not_sat l c h hc

set_option maxRecDepth 4000 in
theorem star_not_ws : isJsWs '*' = false := by decide

theorem outdatedLineStep_eq (acc : Nat) (ln : List Char) :
    outdatedLineStep acc ln =
      acc + (if (!(jsTrim ln).isEmpty && hasChar (jsTrim ln) '*') = true
             then 1 else 0) := by
  unfold outdatedLineStep
  cases hst : hasChar (jsTrim ln) '*' with
  | false => simp [hst]
  | true =>
    have hmem : '*' ∈ jsTrim ln := (hasChar_iff_mem _ _).mp hst
    have hmem2 : '*' ∈ jsTrim (jsTrim ln) :=
      mem_jsTrim_of_not_ws star_not_ws _ hmem
    have hne2 : jsTrim (jsTrim ln) ≠ [] := by
      intro he; rw [he] at hmem2; simp at hmem2
    have hlen : 0 < (jsTrim (jsTrim ln)).length := List.length_pos.mpr hne2
    have hne : (jsTrim ln).isEmpty = false := by
      cases he : jsTrim ln with
      | nil => rw [he] at hmem; simp at hmem
      | cons a b => simp [List.isEmpty]
    simp [hst, hlen, hne]

theorem outdated_foldl_eq_countP :
    ∀ (L : List (List Char)) (acc : Nat),
    L.foldl outdatedLineStep acc =
      acc + L.countP (fun ln => !(jsTrim ln).isEmpty && hasChar (jsTrim ln) '*') := by
  intro L
  induction L with
  | nil => intro acc; simp
  | cons ln t ih =>
    intro acc
    simp only [List.foldl_cons, List.countP_cons]
    rw [outdatedLineStep_eq, ih]
    cases h : (!(jsTrim ln).isEmpty && hasChar (jsTrim ln) '*') with
    | true => simp [h]; try omega
    | false => simp [h]; try omega

/-- C2: for every input string the outdated-package counter equals the
number of lines of the trimmed text whose trimmed form is non-empty and
contains the table marker character. -/
theorem C2_outdated_counts_marker_lines (s : String) :
    parseOutdatedPackagesOutput s = specOutdatedCount s.data := by
  unfold parseOutdatedPackagesOutput specOutdatedCount
  rw [outdated_foldl_eq_countP]
  omega

/-! ### Unsupported-package extractor (countNotSupportedPackages) -/

/-- The literal tail of the unsupported-package regex:
` packages doesn't support` (case-sensitive). -/
def nsPat : List Char :=
  " packages doesn".data ++ [Char.ofNat 39] ++ "t support".data

/-- Try to match `(\d+) packages doesn't support` at the start of the
text, returning the captured digit run. -/
def matchNotSupAt (l : List Char) : Option (List Char) :=
  let ds := l.takeWhile isDigitCh
  if ds = [] then none
  else if matchExact nsPat (l.drop ds.length) then some ds else none

def countNotSupAux : List Char → Nat
  | [] => 0
  | c :: t =>
    match matchNotSupAt (c :: t) with
    | some ds => digitsToNat ds
    | none => countNotSupAux t

/-- Embeds countNotSupportedPackages: the parsed capture of the first
(leftmost) match, or 0 when the regex does not match. -/
def countNotSupportedPackages (input : String) : Nat :=
  countNotSupAux input.data

/-- Fuelled scan collecting every non-overlapping occurrence value of
the unsupported-package pattern, left to right. -/
def notSupOccsF : Nat → List Char → List Nat
  | 0, _ => []
  | _ + 1, [] => []
  | fuel + 1, c :: t =>
    match matchNotSupAt (c :: t) with
    | some ds =>
      digitsToNat ds :: notSupOccsF fuel ((c :: t).drop (ds.length + nsPat.length))
    | none => notSupOccsF fuel t

/-- Spec-side reading: the values of all occurrences of
`<n> packages doesn't support`, in text order. -/
def notSupOccurrences (l : List Char) : List Nat :=
  notSupOccsF l.length l

theorem countNotSupAux_eq_head : ∀ (fuel : Nat) (l : List Char),
    l.length ≤ fuel → countNotSupAux l = (notSupOccsF fuel l).headD 0 := by
  intro fuel
  induction fuel with
  | zero =>
    intro l h
    have : l = [] := List.length_eq_zero.mp (Nat.le_zero.mp h)
    subst this; rfl
  | succ n ih =>
    intro l h
    cases l with
    | nil => rfl
    | cons c t =>
      simp only [countNotSupAux, notSupOccsF]
      cases hm : matchNotSupAt (c :: t) with
      | some ds => simp
      | none =>
        simp only [List.length_cons] at h
        exact ih t (by omega)

/-- C3: for every input string the unsupported-package extractor returns
the value of the first (leftmost) occurrence of the pattern
`<n> packages doesn't support`, and 0 when there is no occurrence; later
occurrences are never summed. -/
theorem C3_not_supported_first_match (s : String) :
    countNotSupportedPackages s = (notSupOccurrences s.data).headD 0 ∧
    (notSupOccurrences s.data = [] → countNotSupportedPackages s = 0) := by
  have h := countNotSupAux_eq_head s.data.length s.data (Nat.le_refl _)
  refine ⟨h, fun he => ?_⟩
  unfold countNotSupportedPackages
  rw [h]
  unfold notSupOccurrences at he
  rw [he]
  rfl

/-- Witness for C3 on a concrete pattern-free input. -/
theorem C3_not_supported_witness : countNotSupportedPackages "fine" = 0 :=
  (C3_not_supported_first_match "fine").2 (by rfl)

/-! ### Formatted-file scanner (the `Changed.*\.dart` regex) -/

/-- The maximal terminator-free segment at the head of the text, the
span the regex dot can range over. -/
def lineSeg (l : List Char) : List Char :=
  l.takeWhile (fun c => !isLineTerm c)

/-- One past the start of the last occurrence of `.dart`
(case-insensitive) inside the segment, the position the greedy dot-star
backtracks to. -/
def lastDartEnd : List Char → Option Nat
  | [] => none
  | c :: t =>
    match lastDartEnd t with
    | some e => some (e + 1)
    | none =>
      if (matchCI (".dart".data) (c :: t)).isSome then some 5 else none

/-- Try to match `Changed.*\.dart` (case-insensitive) at the start of
the text: the literal `Changed`, then the greedy dot-star, which cannot
cross a line terminator, then the last `.dart` before the terminator.
Returns the remainder of the text after the match. -/
def matchChangedAt (l : List Char) : Option (List Char) :=
  match matchCI ("Changed".data) l with
  | none => none
  | some (_, r7) =>
    match lastDartEnd (lineSeg r7) with
    | some e => some (r7.drop e)
    | none => none

/-- Fuelled global scan collecting the matched substrings of
`Changed.*\.dart`. -/
def scanChangedF : Nat → List Char → List (List Char)
  | 0, _ => []
  | _ + 1, [] => []
  | fuel + 1, c :: t =>
    match matchChangedAt (c :: t) with
    | some rest =>
      (c :: t).take ((c :: t).length - rest.length) :: scanChangedF fuel rest
    | none => scanChangedF fuel t

/-- The array produced by `output.match(/Changed.*\.dart/gi)`. -/
def changedMatchList (l : List Char) : List (List Char) :=
  scanChangedF l.length l

/-! ### Environment model and report driver -/

/-- Result of one subprocess invocation: captured standard output on
success, or on failure the captured standard-error text, which the
process layer reports as an absent value on a spawn error. -/
inductive CmdResult where
  | ok (out : String)
  | fail (errText : Option String)
deriving DecidableEq

/-- The ambient effects the run reads: file existence under the target
directory, the parsed manifest description field, and the subprocess
oracle keyed by command and working directory. -/
structure Env where
  fsExists : String → Bool
  pubspecDescription : Option String
  run : String → String → CmdResult

/-- Embeds executeCommandSync (the suppressOutput flag is never set by
any caller): returns captured standard output, and on failure the caught
standard-error value, which can be absent. -/
def executeCommandSync (env : Env) (command cwd : String) : Option String :=
  match env.run command cwd with
  | .ok o => some o
  | .fail e => e

def REQUIRED_FILES : List String := ["README.md", "LICENSE", "CONTRIBUTING.md"]

def MIN_DESCRIPTION_LENGTH : Nat := 60

/-- Embeds checkDocumentation: the lines it prints about the manifest
description, paired with the list of required files found on disk.  A
falsy description field is replaced by the empty string. -/
def checkDocumentation (env : Env) (directory : String) :
    List String × List String :=
  let foundFiles :=
    REQUIRED_FILES.filter (fun file => env.fsExists (directory ++ "/" ++ file))
  let descLines :=
    if env.fsExists (directory ++ "/pubspec.yaml") then
      let description := env.pubspecDescription.getD ""
      if description.length > MIN_DESCRIPTION_LENGTH then
        ["   Description key found in pubspec.yaml."]
      else
        ["   Could not find sufficient description found in pubspec.yaml."]
    else []
  (descLines, foundFiles)

/-- Substring containment at some position (the includes method). -/
def inclAux (p : List Char) : List Char → Bool
  | [] => decide (p = [])
  | c :: t => matchExact p (c :: t) || inclAux p t

def strIncludes (s sub : String) : Bool := inclAux sub.data s.data

/-- Embeds runFlutterFormatAnalysis: the analysis step and the format
step, returning the printed lines. -/
def runFlutterFormatAnalysis (env : Env) (projectDirectory : String) :
    List String :=
  let flutterOutput := executeCommandSync env "flutter analyze" projectDirectory
  let analyzeLines :=
    match flutterOutput with
    | some out =>
      if out = "" then
        ["   Some error occurred while executing flutter analyze command. Run "
          ++ sq ++ "flutter analyze" ++ sq
          ++ " command in your project to check for issues."]
      else
        let issueCount := getNumberOfAnalysisIssue out
        if issueCount > 0 then
          ["   Found " ++ toString issueCount ++ " analysis issues.",
           "   Run " ++ sq ++ "flutter analyze" ++ sq
             ++ " command in your project to check for issues."]
        else
          [out, "   No analysis issues found."]
    | none =>
      ["   Some error occurred while flutter analyze command. Run flutter analyze command in your project to check for issues."]
  let dartFormatOutput :=
    executeCommandSync env "dart format --output=none ." projectDirectory
  let formatLines :=
    match dartFormatOutput with
    | some out =>
      let formattedFiles := changedMatchList out.data
      if formattedFiles.length > 0 then
        ["\n   " ++ toString formattedFiles.length
           ++ " files needs to be formatted.",
         "   Run " ++ sq ++ "dart format ." ++ sq
           ++ " command in your project to get the files formatted."]
      else
        ["   No files needed formatting."]
    | none => []
  analyzeLines ++ formatLines

/-- Embeds analysePubspecDependencies. -/
def analysePubspecDependencies (env : Env) (projectDirectory : String) :
    List String :=
  match executeCommandSync env "dart pub outdated" projectDirectory with
  | none => []
  | some outdatedPackages =>
    let upgradablePackagesCount := parseOutdatedPackagesOutput outdatedPackages
    if upgradablePackagesCount > 0 then
      ["   Found " ++ toString upgradablePackagesCount
         ++ " packages which can be updated.",
       "   Run " ++ sq ++ "dart pub outdated" ++ sq
         ++ " command in your project to know more about these."]
    else
      ["   All pub dependencies on respective latest versions."]

def osList : List String := ["android", "ios", "web"]

/-- The per-platform loop of analyseSupportedPlatforms.  The Boolean is
true when the iteration reads a member on an absent command result,
which raises a type fault; the lines printed before that point are
kept. -/
def platformLoop (env : Env) (projectDirectory : String) :
    List String → List String × Bool
  | [] => ([], false)
  | os :: rest =>
    match executeCommandSync env ("dart run will_it_run:" ++ os)
        projectDirectory with
    | none => ([], true)
    | some supportCheck =>
      let n := countNotSupportedPackages supportCheck
      let line :=
        if n > 0 then
          "   Found " ++ toString n ++ " packages not supported for " ++ os
        else
          "   All packages are supported for " ++ os
      let next := platformLoop env projectDirectory rest
      (line :: next.1, next.2)

/-- Embeds analyseSupportedPlatforms: printed lines plus a crash flag.
The source reads a member of the add-command result without checking it
for absence, so an absent result raises a type fault. -/
def analyseSupportedPlatforms (env : Env) (projectDirectory : String) :
    List String × Bool :=
  match executeCommandSync env "dart pub add will_it_run" projectDirectory with
  | none => ([], true)
  | some addWillItRun =>
    if strIncludes addWillItRun "Add will_it_run: Resolving dependencies"
        || strIncludes addWillItRun
             "\"will_it_run\" is already in \"dependencies\"" then
      platformLoop env projectDirectory osList
    else ([addWillItRun], false)

inductive Outcome where
  | exited (code : Nat)
  | crashed
deriving DecidableEq

/-- The observable result of a run: standard output lines, error stream
lines, and how the process ended. -/
structure RunResult where
  out : List String
  errOut : List String
  outcome : Outcome
deriving DecidableEq

/-- The missing set the caller computes from the returned file list. -/
def missingFilesOf (foundFiles : List String) : List String :=
  REQUIRED_FILES.filter (fun file => !foundFiles.contains file)

/-- The array join method with separator `, `. -/
def joinComma : List String → String
  | [] => ""
  | [x] => x
  | x :: y :: t => x ++ ", " ++ joinComma (y :: t)

/-- Embeds main: argument validation, the four report sections, and the
final banner, which is not reached when the platform section raises. -/
def main (env : Env) (args : List String) : RunResult :=
  if args.length ≠ 1 then
    { out := [], errOut := ["Usage: pub-score2.js <directory>"],
      outcome := .exited 1 }
  else
    let directory := args.headD ""
    let docResult := checkDocumentation env directory
    let foundFiles := docResult.2
    let missingFiles := missingFilesOf foundFiles
    let sec1 := ["\n1. Checking required files and descriptions..."]
      ++ docResult.1
      ++ ["   Found " ++ toString foundFiles.length ++ " documentation files"]
      ++ (if missingFiles.length > 0 then
            ["   Missing documentation file(s): " ++ joinComma missingFiles ++ "."]
          else [])
    let sec2 := ["\n2. Analysing Flutter format and warnings..."]
      ++ runFlutterFormatAnalysis env directory
    let sec3 := ["\n3. Analysing pubspec dependecies..."]
      ++ analysePubspecDependencies env directory
    let platforms := analyseSupportedPlatforms env directory
    let sec4 := ["\n4. Analysing supported platforms..."] ++ platforms.1
    { out := "\nStarting analysis..."
        :: (sec1 ++ sec2 ++ sec3 ++ sec4
            ++ (if platforms.2 then [] else ["\nAnalysis finished."])),
      errOut := [],
      outcome := if platforms.2 then .crashed else .exited 0 }

/-! ### Documentation-check properties (C4, C5, C9) -/

/-- C4: with a manifest present, a description of exactly 60 characters
is classified insufficient, 61 or more characters is sufficient, and an
absent description field behaves exactly like the empty string. -/
theorem C4_description_threshold (env : Env) (directory : String)
    (hp : env.fsExists (directory ++ "/pubspec.yaml") = true) :
    ((env.pubspecDescription.getD "").length = 60 →
      (checkDocumentation env directory).1 =
        ["   Could not find sufficient description found in pubspec.yaml."]) ∧
    (61 ≤ (env.pubspecDescription.getD "").length →
      (checkDocumentation env directory).1 =
        ["   Description key found in pubspec.yaml."]) ∧
    (env.pubspecDescription = none →
      checkDocumentation env directory =
        checkDocumentation { env with pubspecDescription := some "" } directory) := by
  refine ⟨?_, ?_, ?_⟩
  · intro h
    simp only [checkDocumentation, hp, if_true, MIN_DESCRIPTION_LENGTH, h]
    norm_num
  · intro h
    simp only [checkDocumentation, hp, if_true, MIN_DESCRIPTION_LENGTH]
    rw [if_pos (by omega)]
  · intro h
    simp [checkDocumentation, h]

/-- A concrete environment whose manifest description has exactly 60
characters. -/
def envC4 : Env :=
  { fsExists := fun _ => true
    pubspecDescription :=
      some "aaaaaaaaaaaaaaaaaaaaaaaaaaaaaaaaaaaaaaaaaaaaaaaaaaaaaaaaaaaa"
    run := fun _ _ => .ok "" }

/-- Witness for C4 at a 60-character description. -/
theorem C4_description_witness :
    (checkDocumentation envC4 "p").1 =
      ["   Could not find sufficient description found in pubspec.yaml."] :=
  (C4_description_threshold envC4 "p" rfl).1 rfl

theorem strAppend_assoc (a b c : String) : a ++ b ++ c = a ++ (b ++ c) := by
  cases a with
  | mk da =>
  cases b with
  | mk db =>
  cases c with
  | mk dc =>
  show String.mk (da ++ db ++ dc) = String.mk (da ++ (db ++ dc))
  rw [List.append_assoc]

/-- C5: when README.md and LICENSE exist and CONTRIBUTING.md does not,
checkDocumentation returns exactly those two filenames and the missing
set computed by the caller is exactly CONTRIBUTING.md. -/
theorem C5_two_docs_present (env : Env) (directory : String)
    (h1 : env.fsExists (directory ++ "/README.md") = true)
    (h2 : env.fsExists (directory ++ "/LICENSE") = true)
    (h3 : env.fsExists (directory ++ "/CONTRIBUTING.md") = false) :
    (checkDocumentation env directory).2 = ["README.md", "LICENSE"] ∧
    missingFilesOf (checkDocumentation env directory).2 = ["CONTRIBUTING.md"] := by
  have h1' : env.fsExists (directory ++ "/" ++ "README.md") = true := by
    rw [strAppend_assoc]; exact h1
  have h2' : env.fsExists (directory ++ "/" ++ "LICENSE") = true := by
    rw [strAppend_assoc]; exact h2
  have h3' : env.fsExists (directory ++ "/" ++ "CONTRIBUTING.md") = false := by
    rw [strAppend_assoc]; exact h3
  have hf : (checkDocumentation env directory).2 = ["README.md", "LICENSE"] := by
    simp [checkDocumentation, REQUIRED_FILES, List.filter, h1', h2', h3']
  refine ⟨hf, ?_⟩
  rw [hf]
  simp [missingFilesOf, REQUIRED_FILES, List.filter]

/-- A concrete directory holding exactly README.md and LICENSE. -/
def envC5 : Env :=
  { fsExists := fun p => decide (p = "p/README.md" ∨ p = "p/LICENSE")
    pubspecDescription := none
    run := fun _ _ => .ok "" }

/-- Witness for C5 at a concrete two-file directory. -/
theorem C5_two_docs_witness :
    (checkDocumentation envC5 "p").2 = ["README.md", "LICENSE"] ∧
    missingFilesOf (checkDocumentation envC5 "p").2 = ["CONTRIBUTING.md"] :=
  C5_two_docs_present envC5 "p" (by rfl) (by rfl) (by rfl)

/-- C9: the found-file list is always an ordered sublist of the fixed
required list, has no duplicates, and has at most three elements. -/
theorem C9_found_files_sublist (env : Env) (directory : String) :
    List.Sublist (checkDocumentation env directory).2 REQUIRED_FILES ∧
    (checkDocumentation env directory).2.Nodup ∧
    (checkDocumentation env directory).2.length ≤ 3 := by
  have hs : List.Sublist (checkDocumentation env directory).2 REQUIRED_FILES :=
    List.filter_sublist _
  have hnd : REQUIRED_FILES.Nodup := by decide
  refine ⟨hs, hnd.sublist hs, ?_⟩
  have := hs.length_le
  simpa [REQUIRED_FILES] using this

/-! ### Driver properties (C6, C7, C8) -/

/-- C7: any argument count other than one prints the usage line on the
error stream and exits with status 1; exactly one argument prints the
starting banner first, and the run then either completes with status 0
or raises, never exiting non-zero. -/
theorem C7_argument_validation (env : Env) (args : List String) :
    (args.length ≠ 1 →
      main env args =
        { out := [], errOut := ["Usage: pub-score2.js <directory>"],
          outcome := .exited 1 }) ∧
    (∀ d, args = [d] →
      (main env args).out.head? = some "\nStarting analysis..." ∧
      ((main env args).outcome = .crashed ∨
        (main env args).outcome = .exited 0)) := by
  constructor
  · intro h
    simp [main, h]
  · intro d hd
    subst hd
    constructor
    · simp [main]
    · simp only [main]
      norm_num
      by_cases hc : (analyseSupportedPlatforms env d).2
      · left; simp [hc]
      · right; simp [hc]

/-- A trivial environment for the C7 witness. -/
def envC7 : Env :=
  { fsExists := fun _ => false
    pubspecDescription := none
    run := fun _ _ => .ok "" }

/-- Witness for C7: zero arguments yield the usage failure, one argument
yields the banner and a status-0 completion. -/
theorem C7_argument_witness :
    main envC7 [] =
      { out := [], errOut := ["Usage: pub-score2.js <directory>"],
        outcome := .exited 1 } ∧
    (main envC7 ["p"]).out.head? = some "\nStarting analysis..." ∧
    ((main envC7 ["p"]).outcome = .crashed ∨
      (main envC7 ["p"]).outcome = .exited 0) :=
  ⟨(C7_argument_validation envC7 []).1 (by decide),
   (C7_argument_validation envC7 ["p"]).2 "p" rfl⟩

/-- The environment of the end-to-end empty scenario: no files on disk,
no manifest, every subprocess returns the empty string. -/
def emptyEnv : Env :=
  { fsExists := fun _ => false
    pubspecDescription := none
    run := fun _ _ => .ok "" }

/-- C8: in the empty scenario the report shows zero documentation files,
all three missing, the generic analysis-error message, no files needing
formatting, all dependencies up to date, the raw empty add output with
the platform loop skipped, and the completion banner with exit 0. -/
theorem C8_empty_environment_report :
    main emptyEnv ["pkg"] =
      { out := ["\nStarting analysis...",
                "\n1. Checking required files and descriptions...",
                "   Found 0 documentation files",
                "   Missing documentation file(s): README.md, LICENSE, CONTRIBUTING.md.",
                "\n2. Analysing Flutter format and warnings...",
                "   Some error occurred while executing flutter analyze command. Run "
                  ++ sq ++ "flutter analyze" ++ sq
                  ++ " command in your project to check for issues.",
                "   No files needed formatting.",
                "\n3. Analysing pubspec dependecies...",
                "   All pub dependencies on respective latest versions.",
                "\n4. Analysing supported platforms...",
                "",
                "\nAnalysis finished."],
        errOut := [], outcome := .exited 0 } := by
  rfl

/-- The environment refuting C6: the add command fails at spawn with no
captured error text, every other command succeeds with empty output. -/
def spawnFailEnv : Env :=
  { fsExists := fun _ => false
    pubspecDescription := none
    run := fun command _ =>
      if command = "dart pub add will_it_run" then .fail none else .ok "" }

/-- Counterexample to C6 as stated: the argument-count check passes, a
subprocess failure leaves the runner result absent, the platform section
raises on it, and the completion banner is never printed. -/
theorem C6_counterexample :
    (main spawnFailEnv ["pkg"]).outcome = .crashed ∧
    "\nAnalysis finished." ∉ (main spawnFailEnv ["pkg"]).out := by
  constructor
  · rfl
  · decide

theorem platformLoop_no_crash (env : Env) (d : String)
    (h : ∀ command cwd, executeCommandSync env command cwd ≠ none) :
    ∀ oses : List String, (platformLoop env d oses).2 = false := by
  intro oses
  induction oses with
  | nil => rfl
  | cons os rest ih =>
    simp only [platformLoop]
    cases he : executeCommandSync env ("dart run will_it_run:" ++ os) d with
    | none => exact absurd he (h _ _)
    | some supportCheck => simpa using ih

/-- C6 amended: when every subprocess failure yields captured error
text, the run raises no fault and prints the completion banner with
status 0. -/
theorem C6_no_crash_when_errors_captured (env : Env) (d : String)
    (h : ∀ command cwd, executeCommandSync env command cwd ≠ none) :
    (main env [d]).outcome = .exited 0 ∧
    "\nAnalysis finished." ∈ (main env [d]).out := by
  have hp : (analyseSupportedPlatforms env d).2 = false := by
    unfold analyseSupportedPlatforms
    cases ha : executeCommandSync env "dart pub add will_it_run" d with
    | none => exact absurd ha (h _ _)
    | some addWillItRun =>
      simp only
      by_cases hph : (strIncludes addWillItRun "Add will_it_run: Resolving dependencies"
          || strIncludes addWillItRun
               "\"will_it_run\" is already in \"dependencies\"") = true
      · rw [if_pos hph]
        exact platformLoop_no_crash env d h osList
      · rw [if_neg hph]
  constructor
  · simp [main, hp]
  · simp [main, hp]

/-- A fully healthy environment for the C6 witness. -/
def envC6 : Env :=
  { fsExists := fun _ => false
    pubspecDescription := none
    run := fun _ _ => .ok "x" }

/-- Witness for the amended C6 at a concrete healthy environment. -/
theorem C6_no_crash_witness :
    (main envC6 ["p"]).outcome = .exited 0 ∧
    "\nAnalysis finished." ∈ (main envC6 ["p"]).out :=
  C6_no_crash_when_errors_captured envC6 "p"
    (fun _ _ => Option.some_ne_none "x")

/-! ### Per-line bound for the formatted-file scanner (C10) -/

/-- Whether `.dart` (case-insensitive) occurs at some position. -/
def dartOccurs : List Char → Bool
  | [] => false
  | c :: t => (matchCI (".dart".data) (c :: t)).isSome || dartOccurs t

/-- The lines of a text: maximal runs free of line terminators. -/
def linesOf : List Char → List (List Char)
  | [] => [[]]
  | c :: t =>
    if isLineTerm c then [] :: linesOf t
    else
      match linesOf t with
      | h :: r => (c :: h) :: r
      | [] => [[c]]

theorem linesOf_ne_nil : ∀ l : List Char, linesOf l ≠ [] := by
  intro l
  cases l with
  | nil => simp [linesOf]
  | cons c t =>
    simp only [linesOf]
    by_cases h : isLineTerm c
    · simp [h]
    · simp only [h]
      cases linesOf t with
      | nil => simp
      | cons a b => simp

theorem linesOf_length :
    ∀ l : List Char, (linesOf l).length = l.countP isLineTerm + 1 := by
  intro l
  induction l with
  | nil => simp [linesOf, List.countP_nil]
  | cons c t ih =>
    simp only [linesOf, List.countP_cons]
    by_cases h : isLineTerm c
    · simp [h, ih]
    · simp only [h, if_neg]
      cases hl : linesOf t with
      | nil => exact absurd hl (linesOf_ne_nil t)
      | cons a b =>
        rw [hl] at ih
        simp at ih ⊢
        simp [h, ih]

theorem countP_drop_le (p : Char → Bool) (l : List Char) (k : Nat) :
    (l.drop k).countP p ≤ l.countP p := by
  conv_rhs => rw [← List.take_append_drop k l]
  rw [List.countP_append]
  omega

theorem dartOccurs_append_right :
    ∀ (a b : List Char), dartOccurs b = true → dartOccurs (a ++ b) = true := by
  intro a b hb
  induction a with
  | nil => simpa using hb
  | cons c t ih =>
    simp only [List.cons_append, dartOccurs, Bool.or_eq_true]
    exact Or.inr ih

theorem dartOccurs_drop :
    ∀ (k : Nat) (l : List Char), dartOccurs l = false →
      dartOccurs (l.drop k) = false := by
  intro k
  induction k with
  | zero => intro l h; simpa using h
  | succ n ih =>
    intro l h
    cases l with
    | nil => simpa using h
    | cons c t =>
      rw [List.drop_succ_cons]
      simp only [dartOccurs, Bool.or_eq_false_iff] at h
      exact ih t h.2

theorem lastDartEnd_le : ∀ (l : List Char) (e : Nat),
    lastDartEnd l = some e → e ≤ l.length := by
  intro l
  induction l with
  | nil => intro e h; simp [lastDartEnd] at h
  | cons c t ih =>
    intro e h
    simp only [lastDartEnd] at h
    cases hl : lastDartEnd t with
    | some e' =>
      rw [hl] at h
      simp at h
      have := ih e' hl
      simp only [List.length_cons]
      omega
    | none =>
      rw [hl] at h
      by_cases hd : (matchCI (".dart".data) (c :: t)).isSome = true
      · rw [if_pos hd] at h
        simp at h
        cases hmc : matchCI (".dart".data) (c :: t) with
        | none => rw [hmc] at hd; simp at hd
        | some pr =>
          obtain ⟨m, r⟩ := pr
          have hde := matchCI_decomp _ _ _ _ hmc
          have hlen : (c :: t).length = m.length + r.length := by
            rw [hde.1]; simp
          have hm5 : m.length = 5 := by rw [hde.2]; rfl
          omega
      · rw [if_neg hd] at h; simp at h

theorem lastDartEnd_none_no_dart : ∀ l : List Char,
    lastDartEnd l = none → dartOccurs l = false := by
  intro l
  induction l with
  | nil => intro _; rfl
  | cons c t ih =>
    intro h
    simp only [lastDartEnd] at h
    cases hl : lastDartEnd t with
    | some e' => rw [hl] at h; simp at h
    | none =>
      rw [hl] at h
      by_cases hd : (matchCI (".dart".data) (c :: t)).isSome = true
      · rw [if_pos hd] at h; simp at h
      · rw [if_neg hd] at h
        simp only [dartOccurs, Bool.or_eq_false_iff]
        exact ⟨by simpa using hd, ih hl⟩

theorem lastDartEnd_after_no_dart : ∀ (l : List Char) (e : Nat),
    lastDartEnd l = some e → dartOccurs (l.drop e) = false := by
  intro l
  induction l with
  | nil => intro e h; simp [lastDartEnd] at h
  | cons c t ih =>
    intro e h
    simp only [lastDartEnd] at h
    cases hl : lastDartEnd t with
    | some e' =>
      rw [hl] at h
      simp at h
      rw [← h, List.drop_succ_cons]
      exact ih e' hl
    | none =>
      rw [hl] at h
      by_cases hd : (matchCI (".dart".data) (c :: t)).isSome = true
      · rw [if_pos hd] at h
        simp at h
        have ht := lastDartEnd_none_no_dart t hl
        have := dartOccurs_drop 4 t ht
        rw [← h]
        simpa using this
      · rw [if_neg hd] at h; simp at h

theorem lastDartEnd_some_dart : ∀ (l : List Char) (e : Nat),
    lastDartEnd l = some e → dartOccurs l = true := by
  intro l
  induction l with
  | nil => intro e h; simp [lastDartEnd] at h
  | cons c t ih =>
    intro e h
    simp only [lastDartEnd] at h
    simp only [dartOccurs, Bool.or_eq_true]
    cases hl : lastDartEnd t with
    | some e' => exact Or.inr (ih e' hl)
    | none =>
      rw [hl] at h
      by_cases hd : (matchCI (".dart".data) (c :: t)).isSome = true
      · exact Or.inl hd
      · rw [if_neg hd] at h; simp at h

/-- A terminator character never folds into a lowercase letter code. -/
theorem lineTerm_not_letter {c : Char} (h : isLineTerm c = true) :
    ¬(97 ≤ ciCode c ∧ ciCode c ≤ 122) := by
  simp only [isLineTerm, decide_eq_true_eq] at h
  unfold ciCode
  by_cases hr : 65 ≤ c.toNat ∧ c.toNat ≤ 90
  · omega
  · rw [if_neg hr]; omega

theorem matchCI_consumed_letters : ∀ (p l m r : List Char),
    (∀ q ∈ p, 97 ≤ ciCode q ∧ ciCode q ≤ 122) →
    matchCI p l = some (m, r) → ∀ c ∈ m, isLineTerm c = false := by
  intro p
  induction p with
  | nil => intro l m r _ h; simp [matchCI] at h; simp [h.1]
  | cons q ps ih =>
    intro l m r hp h
    cases l with
    | nil => simp [matchCI] at h
    | cons c cs =>
      simp only [matchCI] at h
      by_cases hq : ciCode q = ciCode c
      · rw [if_pos hq] at h
        cases hm : matchCI ps cs with
        | none => rw [hm] at h; simp at h
        | some pr =>
          obtain ⟨m', r'⟩ := pr
          rw [hm] at h
          simp at h
          intro x hx
          rw [← h.1] at hx
          rcases List.mem_cons.mp hx with h1 | h2
          · subst h1
            by_cases ht : isLineTerm x = true
            · have hlet := hp q (by simp)
              rw [hq] at hlet
              exact absurd hlet (lineTerm_not_letter ht)
            · simpa using ht
          · exact ih cs m' r' (fun y hy => hp y (by simp [hy])) hm x h2
      · rw [if_neg hq] at h; simp at h

theorem takeWhile_append_all {p : Char → Bool} :
    ∀ (a b : List Char), (∀ x ∈ a, p x = true) →
    (a ++ b).takeWhile p = a ++ b.takeWhile p := by
  intro a
  induction a with
  | nil => intro b _; simp
  | cons c t ih =>
    intro b ha
    have hc : p c = true := ha c (by simp)
    simp [List.cons_append, List.takeWhile, hc,
      ih b (fun y hy => ha y (by simp [hy]))]

theorem dropWhile_head_false {p : Char → Bool} :
    ∀ (l : List Char) (d : Char) (dt : List Char),
    l.dropWhile p = d :: dt → p d = false := by
  intro l
  induction l with
  | nil => intro d dt h; simp [List.dropWhile] at h
  | cons c t ih =>
    intro d dt h
    simp only [List.dropWhile] at h
    cases hc : p c with
    | true => rw [hc] at h; exact ih d dt h
    | false =>
      rw [hc] at h
      simp at h
      rw [← h.1]
      exact hc

/-- Shape of a successful `Changed.*\.dart` match: the current line has
a `.dart` occurrence, the remainder after the match has none left on its
line, the remainder is strictly shorter, and it has no more terminators
than the input. -/
theorem matchChangedAt_shape {l r : List Char}
    (h : matchChangedAt l = some r) :
    dartOccurs (lineSeg l) = true ∧ dartOccurs (lineSeg r) = false ∧
    r.length < l.length ∧ r.countP isLineTerm ≤ l.countP isLineTerm := by
  unfold matchChangedAt at h
  cases h7 : matchCI ("Changed".data) l with
  | none => rw [h7] at h; simp at h
  | some pr =>
    obtain ⟨m7, r7⟩ := pr
    rw [h7] at h
    simp only at h
    cases he : lastDartEnd (lineSeg r7) with
    | none => rw [he] at h; simp at h
    | some e =>
      rw [he] at h
      simp at h
      have hde := matchCI_decomp _ _ _ _ h7
      have hm7 : ∀ c ∈ m7, isLineTerm c = false :=
        matchCI_consumed_letters _ _ _ _ (by decide) h7
      have hm7' : ∀ c ∈ m7, (fun c => !isLineTerm c) c = true := by
        intro c hc; simp [hm7 c hc]
      have hseg_l : lineSeg l = m7 ++ lineSeg r7 := by
        rw [hde.1]
        exact takeWhile_append_all m7 r7 hm7'
      have hlen7 : m7.length = 7 := by rw [hde.2]; rfl
      have he_le := lastDartEnd_le _ _ he
      have hsplit := List.takeWhile_append_dropWhile
        (fun c => !isLineTerm c) r7
      have hr : r = (lineSeg r7).drop e ++ r7.dropWhile (fun c => !isLineTerm c) := by
        rw [← h]
        conv_lhs => rw [show r7 = lineSeg r7 ++ r7.dropWhile (fun c => !isLineTerm c) from (hsplit).symm]
        exact List.drop_append_of_le_length he_le
      have hdrop_all : ∀ x ∈ (lineSeg r7).drop e, (fun c => !isLineTerm c) x = true := by
        intro x hx
        exact mem_takeWhile_sat r7 x (List.mem_of_mem_drop hx)
      have hseg_r : lineSeg r = (lineSeg r7).drop e := by
        rw [hr]
        show ((lineSeg r7).drop e
            ++ r7.dropWhile (fun c => !isLineTerm c)).takeWhile
              (fun c => !isLineTerm c) = (lineSeg r7).drop e
        rw [takeWhile_append_all _ _ hdrop_all]
        cases hdw : r7.dropWhile (fun c => !isLineTerm c) with
        | nil => simp
        | cons d dt =>
          have hd := dropWhile_head_false r7 d dt hdw
          simp only [List.takeWhile, hd]
          simp
      refine ⟨?_, ?_, ?_, ?_⟩
      · rw [hseg_l]
        exact dartOccurs_append_right m7 _ (lastDartEnd_some_dart _ _ he)
      · rw [hseg_r]
        exact lastDartEnd_after_no_dart _ _ he
      · have h1 : r.length = r7.length - e := by rw [← h, List.length_drop]
        have h2 : l.length = m7.length + r7.length := by rw [hde.1]; simp
        omega
      · have h1 : r.countP isLineTerm ≤ r7.countP isLineTerm := by
          rw [← h]; exact countP_drop_le _ _ _
        have h2 : l.countP isLineTerm = m7.countP isLineTerm + r7.countP isLineTerm := by
          rw [hde.1, List.countP_append]
        omega

theorem lineSeg_cons_nonterm {c : Char} (t : List Char)
    (h : isLineTerm c = false) : lineSeg (c :: t) = c :: lineSeg t := by
  simp [lineSeg, List.takeWhile, h]

/-- Per-line bound for the fuelled scan: the match count never exceeds
the terminator count plus one, and when the current line has no `.dart`
left it never exceeds the terminator count. -/
theorem scanChangedF_per_line : ∀ (fuel : Nat) (l : List Char),
    l.length ≤ fuel →
    (scanChangedF fuel l).length ≤ l.countP isLineTerm + 1 ∧
    (dartOccurs (lineSeg l) = false →
      (scanChangedF fuel l).length ≤ l.countP isLineTerm) := by
  intro fuel
  induction fuel with
  | zero =>
    intro l hl
    have : l = [] := List.length_eq_zero.mp (Nat.le_zero.mp hl)
    subst this
    simp [scanChangedF]
  | succ n ih =>
    intro l hl
    cases l with
    | nil => simp [scanChangedF]
    | cons c t =>
      simp only [scanChangedF]
      cases hm : matchChangedAt (c :: t) with
      | some rest =>
        obtain ⟨hdart, hnodart, hlt, hcp⟩ := matchChangedAt_shape hm
        have hrest : rest.length ≤ n := by
          simp only [List.length_cons] at hl
          have hlt' : rest.length < t.length + 1 := by simpa using hlt
          omega
        have hih := (ih rest hrest).2 hnodart
        constructor
        · simp only [List.length_cons]
          omega
        · intro hno
          rw [hno] at hdart
          cases hdart
      | none =>
        have ht : t.length ≤ n := by
          simp only [List.length_cons] at hl
          omega
        have hih := ih t ht
        show (scanChangedF n t).length ≤ _ ∧
          (dartOccurs (lineSeg (c :: t)) = false →
            (scanChangedF n t).length ≤ _)
        constructor
        · have := hih.1
          have hcc : t.countP isLineTerm ≤ (c :: t).countP isLineTerm := by
            rw [List.countP_cons]; exact Nat.le_add_right _ _
          omega
        · intro hno
          by_cases hc : isLineTerm c = true
          · have := hih.1
            rw [List.countP_cons]
            simp [hc]
            omega
          · have hcf : isLineTerm c = false := by simpa using hc
            rw [lineSeg_cons_nonterm t hcf] at hno
            simp only [dartOccurs, Bool.or_eq_false_iff] at hno
            have := hih.2 hno.2
            rw [List.countP_cons]
            simp [hcf]
            omega

/-- C10: the formatted-file counter finds at most one match per line —
its total count is bounded by the number of lines — and on a single line
holding two `Changed <file>.dart` occurrences the greedy match consumes
through the last `.dart`, producing exactly one match. -/
theorem C10_changed_one_match_per_line (s : String) :
    (changedMatchList s.data).length ≤ (linesOf s.data).length ∧
    (changedMatchList ("Changed a.dart Changed b.dart".data)).length = 1 := by
  constructor
  · rw [linesOf_length]
    exact (scanChangedF_per_line s.data.length s.data (Nat.le_refl _)).1
  · rfl

end DartScore
